import Mathlib

/-!
Verification of the event encoding/decoding and autoregressive generation
protocol of the MuGAN music-generation pipeline.

Continuous quarter-note quantities (offsets, durations, time shifts) are
modelled as rationals; MIDI pitch values and discrete class indices as
integers.  Fallible score parsing is modelled with Except.  All definitions
are shallow embeddings of the Python functions in src/config.py,
src/preprocess.py and src/generate.py, keeping the source names.
-/

/-! ## Configuration constants (src/config.py) -/

def MAX_PITCHES : Nat := 4

def VOCAB_SIZE : Nat := 130

def NUM_DURATION_CLASSES : Nat := 8

def NUM_TIME_SHIFT_CLASSES : Nat := 9

/-- DURATION_MAP, the dict {0: 0.125, ..., 7: 16.0} as a dense table. -/
def DURATION_MAP : List ℚ := [1/8, 1/4, 1/2, 1, 2, 4, 8, 16]

/-- TIME_SHIFT_MAP, the dict {0: 0.0, ..., 8: 8.0} as a dense table. -/
def TIME_SHIFT_MAP : List ℚ := [0, 1/16, 1/8, 1/4, 1/2, 1, 2, 4, 8]

/-- Python dict-with-integer-keys lookup m.get(k, d) for a dense table m. -/
def mapGetD (m : List ℚ) (k : Int) (d : ℚ) : ℚ :=
  if 0 ≤ k ∧ k < (m.length : Int) then
    m.getD k.toNat d
  else d

/-! ## Quantizers (src/preprocess.py) -/

/-- The local variable boundaries of quantize_duration. -/
def durationBoundaries : List ℚ := [1/8, 1/4, 1/2, 1, 2, 4, 8]

/-- The local variable boundaries of quantize_time_shift. -/
def tsBoundaries : List ℚ := [1/8, 1/4, 1/2, 1, 2, 4, 8, 16]

/-- The for-loop of quantize_duration: first index (counting from i) whose
boundary test fires, falling through to the accumulated length. -/
def quantizeDurLoop (v : ℚ) : List ℚ → Nat → Nat
  | [], i => i
  | b :: rest, i => if v < b * (3/2) then i else quantizeDurLoop v rest (i + 1)

/-- quantize_duration (src/preprocess.py lines 47-71). -/
def quantize_duration (v : ℚ) : Nat :=
  quantizeDurLoop v durationBoundaries 0

/-- The for-loop of quantize_time_shift: returns i+1 on a hit, and
NUM_TIME_SHIFT_CLASSES - 1 on fall-through. -/
def quantizeTsLoop (v : ℚ) : List ℚ → Nat → Nat
  | [], _ => NUM_TIME_SHIFT_CLASSES - 1
  | b :: rest, i => if v < b * (3/2) then i + 1 else quantizeTsLoop v rest (i + 1)

/-- quantize_time_shift (src/preprocess.py lines 74-101). -/
def quantize_time_shift (v : ℚ) : Nat :=
  if v < 1/16 then 0 else quantizeTsLoop v tsBoundaries 0

/-! ## The quantization rule as worded by the spec -/

/-- Index of the first element b of the table with v < b * 1.5. -/
def smallestIdx (v : ℚ) : List ℚ → Option Nat
  | [] => none
  | b :: rest =>
      if v < b * (3/2) then some 0 else (smallestIdx v rest).map (· + 1)

/-- The rule of spec section 3, for a given boundary table: the smallest
class index i such that v < table[i] * 1.5, or the last class when no
boundary matches. -/
def specQuantizeRule (table : List ℚ) (v : ℚ) : Nat :=
  match smallestIdx v table with
  | some i => i
  | none => table.length - 1

/-- The amended time-shift rule: below the 0.0625 epsilon class 0;
otherwise one plus the smallest index of tsBoundaries (the table
[0.125, ..., 16.0], one step coarser than TIME_SHIFT_MAP) whose 1.5-margin
test fires, falling through to the last class. -/
def specTimeShiftRule (v : ℚ) : Nat :=
  if v < 1/16 then 0
  else
    match smallestIdx v tsBoundaries with
    | some i => i + 1
    | none => NUM_TIME_SHIFT_CLASSES - 1

/-! ## Data model -/

/-- An event: [pitch_0, pitch_1, pitch_2, pitch_3, duration_class,
time_shift_class], the atomic discrete unit of music. -/
structure Event where
  p0 : Int
  p1 : Int
  p2 : Int
  p3 : Int
  durClass : Int
  tsClass : Int
deriving DecidableEq

/-- A placeholder event used only as the default of list indexing. -/
def dummyEvent : Event := ⟨0, 0, 0, 0, 0, 0⟩

/-- The four pitch slots of an event as a list. -/
def Event.slots (e : Event) : List Int := [e.p0, e.p1, e.p2, e.p3]

/-- A timed element of a music21 stream: what the score parser hands to the
encoder, and what the decoder emits into the output part.  Offsets and
durations are in quarter notes. -/
inductive ScoreElement where
  | note (pitch : Int) (offset : ℚ) (dur : ℚ)
  | chord (pitches : List Int) (offset : ℚ) (dur : ℚ)
  | rest (offset : ℚ) (dur : ℚ)
deriving DecidableEq

/-- The duration carried by an emitted stream element. -/
def ScoreElement.elemDur : ScoreElement → ℚ
  | .note _ _ d => d
  | .chord _ _ d => d
  | .rest _ d => d

/-- The onset offset carried by an emitted stream element. -/
def ScoreElement.elemOffset : ScoreElement → ℚ
  | .note _ o _ => o
  | .chord _ o _ => o
  | .rest o _ => o

/-- Whether an emitted stream element is a rest. -/
def ScoreElement.isRestElem : ScoreElement → Bool
  | .rest _ _ => true
  | _ => false

/-- One entry of the all_notes intermediate list built by
extract_events_from_midi (a dict with keys pitches, offset, duration,
is_rest). -/
structure Occurrence where
  pitches : List Int
  offset : ℚ
  duration : ℚ
  isRest : Bool
deriving DecidableEq

/-! ## Encoder (src/preprocess.py, extract_events_from_midi) -/

/-- The per-element branch of the collection loop (lines 127-151): a note
contributes its single pitch, a chord its ascending-sorted pitches truncated
to MAX_PITCHES, and a rest is kept only when at least 0.25 quarter notes
long. -/
def collectOccurrence : ScoreElement → Option Occurrence
  | .note p off dur => some ⟨[p], off, dur, false⟩
  | .chord ps off dur =>
      some ⟨(List.insertionSort (· ≤ ·) ps).take MAX_PITCHES, off, dur, false⟩
  | .rest off dur =>
      if dur ≥ 1/4 then some ⟨[], off, dur, true⟩ else none

/-- The whole collection loop over score.recurse().notesAndRests. -/
def collectOccurrences (elems : List ScoreElement) : List Occurrence :=
  elems.filterMap collectOccurrence

/-- The order used by all_notes.sort(key=lambda x: x[offset]). -/
def occLE (a b : Occurrence) : Prop := a.offset ≤ b.offset

instance : DecidableRel occLE :=
  fun a b => inferInstanceAs (Decidable (a.offset ≤ b.offset))

/-- The stable sort of all_notes by offset (line 153). -/
def sortByOffset (ns : List Occurrence) : List Occurrence :=
  List.insertionSort occLE ns

/-- The pitch_vector construction (lines 159-166): all 129 for a rest,
otherwise up to MAX_PITCHES pitches followed by 128 padding. -/
def pitchVector (n : Occurrence) : List Int :=
  if n.isRest then [129, 129, 129, 129]
  else
    (n.pitches.take MAX_PITCHES) ++
      List.replicate (MAX_PITCHES - (n.pitches.take MAX_PITCHES).length) 128

/-- The event built for one occurrence, given its time shift since the
previous occurrence (lines 168-171). -/
def eventOfOccurrence (n : Occurrence) (timeShift : ℚ) : Event :=
  { p0 := (pitchVector n).getD 0 0
    p1 := (pitchVector n).getD 1 0
    p2 := (pitchVector n).getD 2 0
    p3 := (pitchVector n).getD 3 0
    durClass := (quantize_duration n.duration : Int)
    tsClass := (quantize_time_shift timeShift : Int) }

/-- The encoding fold over the sorted occurrences (lines 155-173):
time_shift is measured onset-to-onset and prev_offset starts at 0.0. -/
def encodeEvents : List Occurrence → ℚ → List Event
  | [], _ => []
  | n :: rest, prevOffset =>
      eventOfOccurrence n (n.offset - prevOffset) :: encodeEvents rest n.offset

/-- extract_events_from_midi (lines 104-178).  The external parse
(converter.parse) either fails — the except branch returns the empty list —
or yields the stream elements the collection loop runs over. -/
def extract_events_from_midi (parseResult : Except String (List ScoreElement)) :
    List Event :=
  match parseResult with
  | .error _ => []
  | .ok elems => encodeEvents (sortByOffset (collectOccurrences elems)) 0

/-! ## Decoder (src/generate.py, sequence_to_midi) -/

/-- The per-event body of the decode loop (lines 168-193): advance the
running offset by the looked-up time shift (with default 0.0), look up the
duration (with default 0.5), and emit a rest, note or chord depending on the
valid pitches. -/
def decodeStep (e : Event) (currentOffset : ℚ) : List ScoreElement × ℚ :=
  let shift := mapGetD TIME_SHIFT_MAP e.tsClass 0
  let off := currentOffset + shift
  let dur := mapGetD DURATION_MAP e.durClass (1/2)
  let valid := e.slots.filter (fun p => decide (0 ≤ p ∧ p ≤ 127))
  match valid with
  | [] => (if e.p0 = 129 then [ScoreElement.rest off dur] else [], off)
  | [p] => ([ScoreElement.note p off dur], off)
  | ps => ([ScoreElement.chord ps off dur], off)

/-- sequence_to_midi's event loop: the stream elements appended to the part,
together with the final running offset, starting from a given offset
(0.0 at line 166). -/
def sequence_to_midi : List Event → ℚ → List ScoreElement × ℚ
  | [], off => ([], off)
  | e :: rest, off =>
      let step := decodeStep e off
      let tail := sequence_to_midi rest step.2
      (step.1 ++ tail.1, tail.2)

/-! ## Generator loop (src/generate.py, generate_sequence) -/

/-- generated[-31:], the sliding context window. -/
def lastN (n : Nat) (xs : List α) : List α := xs.drop (xs.length - n)

/-- The generation for-loop: n remaining iterations, each appending the
event obtained from one predictor invocation on the last 31 generated
events. -/
def genLoop (step : List Event → Event) : Nat → List Event → List Event
  | 0, gen => gen
  | n + 1, gen => genLoop step n (gen ++ [step (lastN 31 gen)])

/-- generate_sequence (lines 69-123).  The external model together with the
per-head temperature sampling of lines 102-116 is abstracted as predict
(one invocation per loop iteration, on exactly the last 31 events) and
sample (the temperature-controlled per-head categorical draw plus clipping);
the function performs no validation of temperature or length. -/
def generate_sequence (predict : List Event → π) (sample : π → ℚ → Event)
    (seed_sequence : List Event) (length : Nat) (temperature : ℚ) :
    List Event :=
  genLoop (fun ctx => sample (predict ctx) temperature)
    (length - seed_sequence.length) seed_sequence

/-! ## Seed sampler (src/generate.py, create_random_seed_sequence) -/

/-- The random draws consumed by one iteration of the seed loop:
pitch1 from randint(50, 90); for each optional slot a uniform unit-interval
gate u and an alternative pitch from randint(50, 90); duration from
randint(0, NUM_DURATION_CLASSES) and ts from
randint(0, NUM_TIME_SHIFT_CLASSES). -/
structure SeedDraw where
  pitch1 : Int
  u2 : ℚ
  alt2 : Int
  u3 : ℚ
  alt3 : Int
  u4 : ℚ
  alt4 : Int
  dur : Int
  ts : Int
deriving DecidableEq

/-- The contract of the random number generator for one draw: randint(a, b)
yields a value in [a, b) and rand() a value in [0, 1). -/
def SeedDraw.Valid (d : SeedDraw) : Prop :=
  50 ≤ d.pitch1 ∧ d.pitch1 < 90 ∧
  50 ≤ d.alt2 ∧ d.alt2 < 90 ∧
  50 ≤ d.alt3 ∧ d.alt3 < 90 ∧
  50 ≤ d.alt4 ∧ d.alt4 < 90 ∧
  0 ≤ d.u2 ∧ d.u2 < 1 ∧
  0 ≤ d.u3 ∧ d.u3 < 1 ∧
  0 ≤ d.u4 ∧ d.u4 < 1 ∧
  0 ≤ d.dur ∧ d.dur < (NUM_DURATION_CLASSES : Int) ∧
  0 ≤ d.ts ∧ d.ts < (NUM_TIME_SHIFT_CLASSES : Int)

/-- The event built by one iteration of the seed loop (lines 223-233):
slot k (k = 2, 3, 4) is 128 unless its gate is at most 0.3, 0.1, 0.05
respectively. -/
def seedEvent (d : SeedDraw) : Event :=
  { p0 := d.pitch1
    p1 := if d.u2 > 3/10 then 128 else d.alt2
    p2 := if d.u3 > 1/10 then 128 else d.alt3
    p3 := if d.u4 > 1/20 then 128 else d.alt4
    durClass := d.dur
    tsClass := d.ts }

/-- create_random_seed_sequence (lines 208-235), parametrized by the stream
of random draws the loop consumes. -/
def create_random_seed_sequence (draws : List SeedDraw) : List Event :=
  draws.map seedEvent

/-! ## Shape predicates for encoded events -/

/-- A valid sounding MIDI pitch. -/
def validPitch (p : Int) : Prop := 0 ≤ p ∧ p ≤ 127

instance : DecidablePred validPitch :=
  fun p => inferInstanceAs (Decidable (0 ≤ p ∧ p ≤ 127))

/-- Rest shape: all MAX_PITCHES pitch slots equal 129. -/
def restShape (e : Event) : Prop :=
  e.p0 = 129 ∧ e.p1 = 129 ∧ e.p2 = 129 ∧ e.p3 = 129

/-- Sounding shape: between 1 and MAX_PITCHES leading slots hold valid
pitches in non-decreasing order, and every remaining slot is 128. -/
def soundingShape (e : Event) : Prop :=
  (validPitch e.p0 ∧ e.p1 = 128 ∧ e.p2 = 128 ∧ e.p3 = 128) ∨
  (validPitch e.p0 ∧ validPitch e.p1 ∧ e.p0 ≤ e.p1 ∧
    e.p2 = 128 ∧ e.p3 = 128) ∨
  (validPitch e.p0 ∧ validPitch e.p1 ∧ validPitch e.p2 ∧
    e.p0 ≤ e.p1 ∧ e.p1 ≤ e.p2 ∧ e.p3 = 128) ∨
  (validPitch e.p0 ∧ validPitch e.p1 ∧ validPitch e.p2 ∧ validPitch e.p3 ∧
    e.p0 ≤ e.p1 ∧ e.p1 ≤ e.p2 ∧ e.p2 ≤ e.p3)

/-- The score-parser contract of spec section 6: notes carry a MIDI pitch in
[0, 127], chords a non-empty list of such pitches. -/
def ParsedOk (elems : List ScoreElement) : Prop :=
  ∀ el ∈ elems,
    match el with
    | .note p _ _ => 0 ≤ p ∧ p ≤ 127
    | .chord ps _ _ => ps ≠ [] ∧ ∀ p ∈ ps, 0 ≤ p ∧ p ≤ 127
    | .rest _ _ => True

/-- The invariant the collection loop guarantees for a non-rest occurrence:
a non-empty, ascending list of valid MIDI pitches. -/
def OccOk (n : Occurrence) : Prop :=
  n.isRest = false →
    n.pitches ≠ [] ∧ n.pitches.Sorted (· ≤ ·) ∧
      ∀ p ∈ n.pitches, 0 ≤ p ∧ p ≤ 127

/-! ## Concrete fixtures used by witnesses and counterexamples -/

/-- The synthetic three-note score of spec section 8 as the parser presents
it: a C4 quarter note, then E4 and G4 sounding together as one chord. -/
def demoScore : List ScoreElement :=
  [ScoreElement.note 60 0 1, ScoreElement.chord [64, 67] 1 (1/2)]

/-- A concrete length-32 seed window. -/
def seed32 : List Event := List.replicate 32 ⟨60, 128, 128, 128, 0, 0⟩

/-- A stub predictor (its distributions are irrelevant to the contracts
proved here, so its output type is trivial). -/
def uniformStub : List Event → Unit := fun _ => ()

/-- A stub sampler returning a fixed event whatever the temperature. -/
def constSample : Unit → ℚ → Event := fun _ _ => ⟨60, 128, 128, 128, 0, 0⟩

/-- One concrete bundle of random draws for the seed sampler. -/
def demoDraw : SeedDraw :=
  { pitch1 := 60, u2 := 1/2, alt2 := 70, u3 := 0, alt3 := 71,
    u4 := 0, alt4 := 72, dur := 3, ts := 4 }

/-! ## Lemmas about the quantization loops -/

theorem quantizeDurLoop_eq (v : ℚ) :
    ∀ (bs : List ℚ) (k : Nat),
      quantizeDurLoop v bs k =
        k + (match smallestIdx v bs with | some i => i | none => bs.length) := by
  intro bs
  induction bs with
  | nil => intro k; simp [quantizeDurLoop, smallestIdx]
  | cons b rest ih =>
      intro k
      by_cases h : v < b * (3/2)
      · simp [quantizeDurLoop, smallestIdx, h]
      · cases hs : smallestIdx v rest with
        | none =>
            simp only [quantizeDurLoop, smallestIdx, if_neg h, ih (k + 1), hs,
              Option.map_none', List.length_cons]
            exact Nat.add_right_comm k 1 rest.length
        | some i =>
            simp only [quantizeDurLoop, smallestIdx, if_neg h, ih (k + 1), hs,
              Option.map_some']
            exact Nat.add_right_comm k 1 i

theorem quantizeTsLoop_eq (v : ℚ) :
    ∀ (bs : List ℚ) (k : Nat),
      quantizeTsLoop v bs k =
        (match smallestIdx v bs with
         | some i => k + i + 1
         | none => NUM_TIME_SHIFT_CLASSES - 1) := by
  intro bs
  induction bs with
  | nil => intro k; simp [quantizeTsLoop, smallestIdx]
  | cons b rest ih =>
      intro k
      by_cases h : v < b * (3/2)
      · simp [quantizeTsLoop, smallestIdx, h]
      · cases hs : smallestIdx v rest with
        | none =>
            simp only [quantizeTsLoop, smallestIdx, if_neg h, ih (k + 1), hs,
              Option.map_none']
        | some i =>
            simp only [quantizeTsLoop, smallestIdx, if_neg h, ih (k + 1), hs,
              Option.map_some']
            exact congrArg (· + 1) (Nat.add_right_comm k 1 i)

theorem smallestIdx_append (v : ℚ) :
    ∀ (bs cs : List ℚ),
      smallestIdx v (bs ++ cs) =
        (smallestIdx v bs).orElse (fun _ => (smallestIdx v cs).map (· + bs.length)) := by
  intro bs cs
  induction bs with
  | nil => simp [smallestIdx, Option.orElse]
  | cons b rest ih =>
      rw [List.cons_append]
      by_cases h : v < b * (3/2)
      · simp [smallestIdx, h, Option.orElse]
      · have h1 : smallestIdx v (b :: (rest ++ cs)) =
            (smallestIdx v (rest ++ cs)).map (· + 1) := by
          simp [smallestIdx, h]
        have h2 : smallestIdx v (b :: rest) =
            (smallestIdx v rest).map (· + 1) := by
          simp [smallestIdx, h]
        rw [h1, h2, ih]
        cases hs : smallestIdx v rest with
        | none =>
            cases hc : smallestIdx v cs with
            | none => simp [Option.orElse]
            | some j =>
                simp only [hc, Option.orElse, Option.map_none', Option.map_some',
                  List.length_cons]
                rfl
        | some i => simp [Option.orElse]

theorem quantize_duration_eq_specRule (v : ℚ) :
    quantize_duration v = specQuantizeRule DURATION_MAP v := by
  have hmap : DURATION_MAP = durationBoundaries ++ [16] := by rfl
  rw [quantize_duration, quantizeDurLoop_eq, specQuantizeRule, hmap,
    smallestIdx_append]
  cases hs : smallestIdx v durationBoundaries with
  | some i => simp [Option.orElse]
  | none =>
      simp only [Option.orElse, Option.map, smallestIdx]
      by_cases h : v < 16 * (3/2)
      · simp [h, durationBoundaries]
      · simp [h, durationBoundaries]

theorem quantize_time_shift_eq_amendedRule (v : ℚ) :
    quantize_time_shift v = specTimeShiftRule v := by
  rw [quantize_time_shift, specTimeShiftRule]
  split
  · rfl
  · rw [quantizeTsLoop_eq]
    cases hs : smallestIdx v tsBoundaries with
    | some i => simp
    | none => simp

/-! ## Lemmas about the generation loop -/

theorem genLoop_append (step : List Event → Event) :
    ∀ (n : Nat) (gen : List Event),
      ∃ tail, genLoop step n gen = gen ++ tail := by
  intro n
  induction n with
  | zero => intro gen; exact ⟨[], by simp [genLoop]⟩
  | succ n ih =>
      intro gen
      obtain ⟨t, ht⟩ := ih (gen ++ [step (lastN 31 gen)])
      exact ⟨[step (lastN 31 gen)] ++ t, by
        simpa [genLoop, List.append_assoc] using ht⟩

theorem genLoop_length (step : List Event → Event) :
    ∀ (n : Nat) (gen : List Event),
      (genLoop step n gen).length = gen.length + n := by
  intro n
  induction n with
  | zero => intro gen; simp [genLoop]
  | succ n ih =>
      intro gen
      rw [genLoop, ih]
      simp only [List.length_append, List.length_cons, List.length_nil]
      omega

theorem genLoop_take (step : List Event → Event) (n : Nat) (gen : List Event) :
    (genLoop step n gen).take gen.length = gen := by
  obtain ⟨t, ht⟩ := genLoop_append step n gen
  rw [ht, List.take_left]

theorem genLoop_getD (step : List Event → Event) :
    ∀ (n : Nat) (gen : List Event) (k : Nat), k < n →
      (genLoop step n gen).getD (gen.length + k) dummyEvent =
        step (lastN 31 ((genLoop step n gen).take (gen.length + k))) := by
  intro n
  induction n with
  | zero => intro gen k hk; omega
  | succ n ih =>
      intro gen k hk
      rw [show genLoop step (n + 1) gen
          = genLoop step n (gen ++ [step (lastN 31 gen)]) from rfl]
      cases k with
      | zero =>
          obtain ⟨t, ht⟩ := genLoop_append step n (gen ++ [step (lastN 31 gen)])
          rw [ht, List.append_assoc, Nat.add_zero,
            List.getD_eq_getElem?_getD,
            List.getElem?_append_right (le_refl gen.length),
            List.take_left]
          simp
      | succ k =>
          have harr : gen.length + (k + 1)
              = (gen ++ [step (lastN 31 gen)]).length + k := by
            simp
            omega
          rw [harr]
          exact ih (gen ++ [step (lastN 31 gen)]) k (by omega)

theorem genLoop_first (step : List Event → Event) (n : Nat) (gen : List Event)
    (hn : 0 < n) :
    (genLoop step n gen).getD gen.length dummyEvent = step (lastN 31 gen) := by
  have h := genLoop_getD step n gen 0 hn
  rw [Nat.add_zero] at h
  rw [h, genLoop_take]

/-! ## Lemmas about the encoder -/

theorem mem_encodeEvents :
    ∀ (ns : List Occurrence) (prev : ℚ) (e : Event),
      e ∈ encodeEvents ns prev →
      ∃ n ∈ ns, ∃ s, e = eventOfOccurrence n s := by
  intro ns
  induction ns with
  | nil => intro prev e he; simp [encodeEvents] at he
  | cons n rest ih =>
      intro prev e he
      rw [encodeEvents, List.mem_cons] at he
      rcases he with he | he
      · exact ⟨n, List.mem_cons_self n rest, n.offset - prev, he⟩
      · obtain ⟨m, hm, s, hs⟩ := ih n.offset e he
        exact ⟨m, List.mem_cons_of_mem n hm, s, hs⟩

theorem collect_occOk (elems : List ScoreElement) (hp : ParsedOk elems) :
    ∀ n ∈ collectOccurrences elems, OccOk n := by
  intro n hn
  rw [collectOccurrences, List.mem_filterMap] at hn
  obtain ⟨el, hel, hsome⟩ := hn
  have hcontract := hp el hel
  cases el with
  | note p off dur =>
      rw [collectOccurrence] at hsome
      cases hsome
      intro _
      refine ⟨by simp, List.sorted_singleton p, ?_⟩
      intro q hq
      rw [List.mem_singleton] at hq
      exact hq ▸ hcontract
  | chord ps off dur =>
      rw [collectOccurrence] at hsome
      cases hsome
      intro _
      obtain ⟨hne, hrange⟩ := hcontract
      refine ⟨?_, ?_, ?_⟩
      · have hlen : 0 < ps.length := List.length_pos.mpr hne
        have hlen2 : (List.insertionSort (· ≤ ·) ps).length = ps.length :=
          (List.perm_insertionSort (· ≤ ·) ps).length_eq
        have : 0 < ((List.insertionSort (· ≤ ·) ps).take MAX_PITCHES).length := by
          rw [List.length_take, hlen2]
          simp [MAX_PITCHES]
          omega
        exact List.ne_nil_of_length_pos this
      · exact List.Pairwise.sublist
          (List.take_sublist MAX_PITCHES (List.insertionSort (· ≤ ·) ps))
          (List.sorted_insertionSort (· ≤ ·) ps)
      · intro q hq
        have hq2 : q ∈ List.insertionSort (· ≤ ·) ps :=
          (List.take_sublist MAX_PITCHES _).subset hq
        exact hrange q (((List.perm_insertionSort (· ≤ ·) ps).mem_iff).mp hq2)
  | rest off dur =>
      rw [collectOccurrence] at hsome
      by_cases hd : dur ≥ 1/4
      · rw [if_pos hd] at hsome
        cases hsome
        intro hfalse
        simp at hfalse
      · rw [if_neg hd] at hsome
        cases hsome

theorem mem_sortByOffset (ns : List Occurrence) (n : Occurrence) :
    n ∈ sortByOffset ns ↔ n ∈ ns :=
  (List.perm_insertionSort occLE ns).mem_iff

theorem sounding_not_rest (e : Event) :
    soundingShape e → ¬ restShape e := by
  intro hs hr
  obtain ⟨h0, _, _, _⟩ := hr
  rcases hs with ⟨hv, _⟩ | ⟨hv, _⟩ | ⟨hv, _⟩ | ⟨hv, _⟩ <;>
    · rw [h0] at hv
      exact absurd hv.2 (by decide)

theorem rest_not_sounding (e : Event) :
    restShape e → ¬ soundingShape e := by
  intro hr hs
  exact sounding_not_rest e hs hr

theorem soundingShape_mk (t : List Int) (hne : t ≠ [])
    (hlen : t.length ≤ 4) (hsort : t.Sorted (· ≤ ·))
    (hrange : ∀ p ∈ t, 0 ≤ p ∧ p ≤ 127) (d ts : Int) :
    soundingShape
      { p0 := (t ++ List.replicate (4 - t.length) 128).getD 0 0
        p1 := (t ++ List.replicate (4 - t.length) 128).getD 1 0
        p2 := (t ++ List.replicate (4 - t.length) 128).getD 2 0
        p3 := (t ++ List.replicate (4 - t.length) 128).getD 3 0
        durClass := d, tsClass := ts } := by
  match t, hne, hlen with
  | [], hne, _ => exact absurd rfl hne
  | _ :: _ :: _ :: _ :: _ :: _, _, hlen => simp at hlen
  | [a], _, _ =>
      left
      exact ⟨hrange a (by simp), rfl, rfl, rfl⟩
  | [a, b], _, _ =>
      right; left
      obtain ⟨hab, _⟩ := List.pairwise_cons.mp hsort
      exact ⟨hrange a (by simp), hrange b (by simp),
        hab b (by simp), rfl, rfl⟩
  | [a, b, c], _, _ =>
      right; right; left
      obtain ⟨hab, hrest⟩ := List.pairwise_cons.mp hsort
      obtain ⟨hbc, _⟩ := List.pairwise_cons.mp hrest
      exact ⟨hrange a (by simp), hrange b (by simp), hrange c (by simp),
        hab b (by simp), hbc c (by simp), rfl⟩
  | [a, b, c, d'], _, _ =>
      right; right; right
      obtain ⟨hab, hrest⟩ := List.pairwise_cons.mp hsort
      obtain ⟨hbc, hrest2⟩ := List.pairwise_cons.mp hrest
      obtain ⟨hcd, _⟩ := List.pairwise_cons.mp hrest2
      exact ⟨hrange a (by simp), hrange b (by simp), hrange c (by simp),
        hrange d' (by simp), hab b (by simp), hbc c (by simp), hcd d' (by simp)⟩

theorem shape_of_eventOfOccurrence (n : Occurrence) (hOk : OccOk n) (s : ℚ) :
    (restShape (eventOfOccurrence n s) ∧ ¬ soundingShape (eventOfOccurrence n s)) ∨
    (soundingShape (eventOfOccurrence n s) ∧ ¬ restShape (eventOfOccurrence n s)) := by
  cases hr : n.isRest with
  | true =>
      have hpv : pitchVector n = [129, 129, 129, 129] := by
        simp [pitchVector, hr]
      have hrest : restShape (eventOfOccurrence n s) := by
        refine ⟨?_, ?_, ?_, ?_⟩ <;> simp [eventOfOccurrence, hpv]
      exact Or.inl ⟨hrest, rest_not_sounding _ hrest⟩
  | false =>
      obtain ⟨hne, hsort, hrange⟩ := hOk hr
      have hpv : pitchVector n =
          n.pitches.take 4 ++
            List.replicate (4 - (n.pitches.take 4).length) 128 := by
        simp [pitchVector, hr, MAX_PITCHES]
      have hsub : (n.pitches.take 4).Sublist n.pitches :=
        List.take_sublist 4 n.pitches
      have hsort4 : (n.pitches.take 4).Sorted (· ≤ ·) :=
        List.Pairwise.sublist hsub hsort
      have hrange4 : ∀ p ∈ n.pitches.take 4, 0 ≤ p ∧ p ≤ 127 :=
        fun p hp => hrange p (hsub.subset hp)
      have hlen4 : (n.pitches.take 4).length ≤ 4 := by
        rw [List.length_take]
        omega
      have hne4 : n.pitches.take 4 ≠ [] := by
        intro habs
        have h0 : (n.pitches.take 4).length = 0 := by rw [habs]; rfl
        rw [List.length_take] at h0
        have : n.pitches.length = 0 := by omega
        exact hne (List.eq_nil_of_length_eq_zero this)
      have hsound : soundingShape (eventOfOccurrence n s) := by
        have hmk := soundingShape_mk (n.pitches.take 4) hne4 hlen4 hsort4
          hrange4 (quantize_duration n.duration : Int)
          (quantize_time_shift s : Int)
        have hev : eventOfOccurrence n s =
            { p0 := (n.pitches.take 4 ++
                List.replicate (4 - (n.pitches.take 4).length) 128).getD 0 0
              p1 := (n.pitches.take 4 ++
                List.replicate (4 - (n.pitches.take 4).length) 128).getD 1 0
              p2 := (n.pitches.take 4 ++
                List.replicate (4 - (n.pitches.take 4).length) 128).getD 2 0
              p3 := (n.pitches.take 4 ++
                List.replicate (4 - (n.pitches.take 4).length) 128).getD 3 0
              durClass := (quantize_duration n.duration : Int)
              tsClass := (quantize_time_shift s : Int) } := by
          rw [eventOfOccurrence, hpv]
        rw [hev]
        exact hmk
      exact Or.inr ⟨hsound, sounding_not_rest _ hsound⟩

/-! ## Lemmas about the decoder -/

theorem decodeStep_snd (e : Event) (off : ℚ) :
    (decodeStep e off).2 = off + mapGetD TIME_SHIFT_MAP e.tsClass 0 := by
  simp only [decodeStep]
  split <;> rfl

theorem decodeStep_elems (e : Event) (off : ℚ) :
    ∀ x ∈ (decodeStep e off).1,
      x.elemDur = mapGetD DURATION_MAP e.durClass (1/2) ∧
      x.elemOffset = off + mapGetD TIME_SHIFT_MAP e.tsClass 0 ∧
      (x.isRestElem = true → e.p0 = 129) := by
  intro x hx
  simp only [decodeStep] at hx
  split at hx
  · by_cases hp0 : e.p0 = 129
    · rw [if_pos hp0, List.mem_singleton] at hx
      subst hx
      exact ⟨rfl, rfl, fun _ => hp0⟩
    · rw [if_neg hp0] at hx
      simp at hx
  · rw [List.mem_singleton] at hx
    subst hx
    exact ⟨rfl, rfl, by simp [ScoreElement.isRestElem]⟩
  · rw [List.mem_singleton] at hx
    subst hx
    exact ⟨rfl, rfl, by simp [ScoreElement.isRestElem]⟩

theorem decodeStep_padding (e : Event) (off : ℚ)
    (h0 : e.p0 = 128) (h1 : e.p1 = 128) (h2 : e.p2 = 128) (h3 : e.p3 = 128) :
    decodeStep e off = ([], off + mapGetD TIME_SHIFT_MAP e.tsClass 0) := by
  simp [decodeStep, Event.slots, h0, h1, h2, h3]

/-! ## Claim theorems -/

/-- C1, counterexample: quantize_time_shift does not follow the
smallest-index 1.5-margin rule over the monotonic time-shift table
TIME_SHIFT_MAP; at v = 0.125 the rule gives class 2 while the code gives
class 1 (and 0.125 is not below the 0.0625 epsilon). -/
theorem C1_counterexample :
    ¬ (∀ v : ℚ, quantize_time_shift v = specQuantizeRule TIME_SHIFT_MAP v) :=
  fun h => absurd (h (1/8)) (of_decide_eq_true (by with_unfolding_all rfl))

/-- C1, amended: quantize_duration follows the smallest-index 1.5-margin
rule over DURATION_MAP exactly; quantize_time_shift follows the same rule
only over the boundary table [0.125, ..., 16.0] shifted one class up (its
boundary for class i is TIME_SHIFT_MAP[i+1], not TIME_SHIFT_MAP[i]); and
every v below 0.0625 — including negative v — yields time-shift class 0. -/
theorem C1_quantization_rule (v : ℚ) :
    quantize_duration v = specQuantizeRule DURATION_MAP v ∧
    quantize_time_shift v = specTimeShiftRule v ∧
    (v < 1/16 → quantize_time_shift v = 0) :=
  ⟨quantize_duration_eq_specRule v, quantize_time_shift_eq_amendedRule v,
   fun h => by rw [quantize_time_shift, if_pos h]⟩

/-- C1, witness: the amended rule evaluated at v = -1 (epsilon collapse,
negative input) and v = 3/4 (duration rule). -/
theorem C1_witness :
    ((-1 : ℚ) < 1/16 ∧ quantize_time_shift (-1) = 0) ∧
    quantize_duration (3/4) = specQuantizeRule DURATION_MAP (3/4) :=
  ⟨⟨of_decide_eq_true (by with_unfolding_all rfl),
    (C1_quantization_rule (-1)).2.2
      (of_decide_eq_true (by with_unfolding_all rfl))⟩,
   (C1_quantization_rule (3/4)).1⟩

/-- C2: quantizing the dequantized table value recovers every duration
class index, and the three concrete examples 0.5 → 2, 0.74 → 2, 0.76 → 3
hold. -/
theorem C2_duration_roundtrip :
    (∀ i : Nat, i < NUM_DURATION_CLASSES →
      quantize_duration (DURATION_MAP.getD i 0) = i) ∧
    quantize_duration (1/2) = 2 ∧
    quantize_duration (37/50) = 2 ∧
    quantize_duration (19/25) = 3 :=
  of_decide_eq_true (by with_unfolding_all rfl)

/-- C2, witness: the round trip evaluated at class 2. -/
theorem C2_witness :
    2 < NUM_DURATION_CLASSES ∧ quantize_duration (DURATION_MAP.getD 2 0) = 2 :=
  ⟨by decide, C2_duration_roundtrip.1 2 (by decide)⟩

/-- C3: for every predictor and every seed of length 32, generation with
target length 256 returns exactly 256 events, its first 32 events are the
seed, and each generated event is the sampled output of one predictor
invocation on exactly the last 31 elements generated so far. -/
theorem C3_generator_contract {π : Type} (predict : List Event → π)
    (sample : π → ℚ → Event) (seed : List Event) (temperature : ℚ)
    (hseed : seed.length = 32) :
    (generate_sequence predict sample seed 256 temperature).length = 256 ∧
    (generate_sequence predict sample seed 256 temperature).take 32 = seed ∧
    (∀ k, k < 224 →
      (generate_sequence predict sample seed 256 temperature).getD (32 + k)
          dummyEvent =
        sample (predict (lastN 31
          ((generate_sequence predict sample seed 256 temperature).take
            (32 + k)))) temperature) := by
  have h224 : 256 - seed.length = 224 := by rw [hseed]
  refine ⟨?_, ?_, ?_⟩
  · rw [generate_sequence, genLoop_length]
    omega
  · rw [← hseed, generate_sequence]
    exact genLoop_take _ _ seed
  · intro k hk
    rw [← hseed]
    exact genLoop_getD (fun ctx => sample (predict ctx) temperature)
      (256 - seed.length) seed k (by rw [h224]; exact hk)

/-- C3, witness: the generator contract at a stub predictor and a concrete
length-32 seed. -/
theorem C3_witness :
    seed32.length = 32 ∧
    ((generate_sequence uniformStub constSample seed32 256 1).length = 256 ∧
     (generate_sequence uniformStub constSample seed32 256 1).take 32 = seed32 ∧
     (∀ k, k < 224 →
       (generate_sequence uniformStub constSample seed32 256 1).getD (32 + k)
           dummyEvent =
         constSample (uniformStub (lastN 31
           ((generate_sequence uniformStub constSample seed32 256 1).take
             (32 + k)))) 1)) :=
  ⟨by decide,
   C3_generator_contract uniformStub constSample seed32 1 (by decide)⟩

/-- C4: under the score-parser contract, every encoded event is exactly one
of (a) a rest event with all four slots 129, or (b) a sounding event with
1..4 leading valid ascending pitches followed only by 128 padding; and a
chord is truncated to the MAX_PITCHES lowest of its sorted pitches. -/
theorem C4_encoder_event_shape (elems : List ScoreElement)
    (hp : ParsedOk elems) :
    (∀ e ∈ extract_events_from_midi (Except.ok elems),
      (restShape e ∧ ¬ soundingShape e) ∨ (soundingShape e ∧ ¬ restShape e)) ∧
    (∀ (ps : List Int) (off dur : ℚ),
      collectOccurrence (ScoreElement.chord ps off dur) =
        some ⟨(List.insertionSort (· ≤ ·) ps).take MAX_PITCHES,
          off, dur, false⟩ ∧
      ∀ a ∈ (List.insertionSort (· ≤ ·) ps).take MAX_PITCHES,
        ∀ b ∈ (List.insertionSort (· ≤ ·) ps).drop MAX_PITCHES, a ≤ b) := by
  constructor
  · intro e he
    simp only [extract_events_from_midi] at he
    obtain ⟨n, hn, s, hs⟩ := mem_encodeEvents _ 0 e he
    have hOk : OccOk n :=
      collect_occOk elems hp n ((mem_sortByOffset _ n).mp hn)
    rw [hs]
    exact shape_of_eventOfOccurrence n hOk s
  · intro ps off dur
    refine ⟨rfl, ?_⟩
    have hsorted := List.sorted_insertionSort (· ≤ ·) ps
    rw [← List.take_append_drop MAX_PITCHES (List.insertionSort (· ≤ ·) ps)]
      at hsorted
    exact (List.pairwise_append.mp hsorted).2.2

/-- C4, witness: the shape invariant evaluated on the concrete demo score. -/
theorem C4_witness :
    ParsedOk demoScore ∧
    ((∀ e ∈ extract_events_from_midi (Except.ok demoScore),
       (restShape e ∧ ¬ soundingShape e) ∨ (soundingShape e ∧ ¬ restShape e)) ∧
     (∀ (ps : List Int) (off dur : ℚ),
       collectOccurrence (ScoreElement.chord ps off dur) =
         some ⟨(List.insertionSort (· ≤ ·) ps).take MAX_PITCHES,
           off, dur, false⟩ ∧
       ∀ a ∈ (List.insertionSort (· ≤ ·) ps).take MAX_PITCHES,
         ∀ b ∈ (List.insertionSort (· ≤ ·) ps).drop MAX_PITCHES, a ≤ b)) := by
  have hp : ParsedOk demoScore := by
    intro el hel
    rcases List.mem_cons.mp hel with h | h
    · subst h; exact ⟨by decide, by decide⟩
    · rcases List.mem_cons.mp h with h2 | h2
      · subst h2
        exact ⟨by decide, by decide⟩
      · simp at h2
  exact ⟨hp, C4_encoder_event_shape demoScore hp⟩

/-- C5: an all-padding event (all four slots 128) decodes to no emitted
element while the offset still advances by exactly the looked-up time
shift; a rest is emitted only when the first slot is 129; and for every
event the new offset is the old offset plus the time-shift lookup alone —
never the duration. -/
theorem C5_decode_padding_and_offset (e : Event) (off : ℚ) :
    ((e.p0 = 128 ∧ e.p1 = 128 ∧ e.p2 = 128 ∧ e.p3 = 128) →
      decodeStep e off = ([], off + mapGetD TIME_SHIFT_MAP e.tsClass 0)) ∧
    (∀ x ∈ (decodeStep e off).1, x.isRestElem = true → e.p0 = 129) ∧
    (decodeStep e off).2 = off + mapGetD TIME_SHIFT_MAP e.tsClass 0 :=
  ⟨fun h => decodeStep_padding e off h.1 h.2.1 h.2.2.1 h.2.2.2,
   fun x hx => (decodeStep_elems e off x hx).2.2,
   decodeStep_snd e off⟩

/-- C5, witness: the padding rule evaluated on a concrete all-128 event. -/
theorem C5_witness :
    ((128 : Int) = 128 ∧ (128 : Int) = 128 ∧ (128 : Int) = 128 ∧
      (128 : Int) = 128) ∧
    decodeStep ⟨128, 128, 128, 128, 2, 3⟩ 0 =
      ([], 0 + mapGetD TIME_SHIFT_MAP 3 0) :=
  ⟨by decide,
   (C5_decode_padding_and_offset ⟨128, 128, 128, 128, 2, 3⟩ 0).1 (by decide)⟩

/-- C6, counterexample: decoding the two events encoded from the synthetic
three-note score does not place the chord at offset 1.0 — the time-shift
class 4 produced by quantize_time_shift 1.0 decodes through TIME_SHIFT_MAP
to 0.5, so the emitted stream differs from the claimed one. -/
theorem C6_counterexample :
    (sequence_to_midi (extract_events_from_midi (Except.ok demoScore)) 0).1 ≠
      [ScoreElement.note 60 0 1, ScoreElement.chord [64, 67] 1 (1/2)] :=
  of_decide_eq_true (by with_unfolding_all rfl)

/-- C6, amended: the encode half is exactly as claimed (events
[[60,128,128,128,3,0], [64,67,128,128,2,4]] with 3 = dur_class(1.0),
0 = shift_class(0.0), 2 = dur_class(0.5), 4 = shift_class(1.0)), and the
decode reproduces the single note at offset 0 with duration 1 and the
two-note chord with duration 0.5 — but at offset 0.5, since
TIME_SHIFT_MAP[4] = 0.5. -/
theorem C6_end_to_end :
    extract_events_from_midi (Except.ok demoScore) =
      [⟨60, 128, 128, 128, 3, 0⟩, ⟨64, 67, 128, 128, 2, 4⟩] ∧
    quantize_duration 1 = 3 ∧ quantize_time_shift 0 = 0 ∧
    quantize_duration (1/2) = 2 ∧ quantize_time_shift 1 = 4 ∧
    sequence_to_midi (extract_events_from_midi (Except.ok demoScore)) 0 =
      ([ScoreElement.note 60 0 1, ScoreElement.chord [64, 67] (1/2) (1/2)],
        1/2) :=
  of_decide_eq_true (by with_unfolding_all rfl)

/-- C7: when score parsing fails, the encoder returns the empty event list;
in the embedding it is a total function, so no exception reaches the
caller. -/
theorem C7_parse_failure_empty (msg : String) :
    extract_events_from_midi (Except.error msg) = [] := rfl

/-- C8, counterexample: no eager validation exists.  With temperature = -1
(an invalid configuration) the generator still runs: it returns a full
33-event sequence whose 33rd event is the sampled output of a predictor
invocation, so the predictor IS invoked; and with target length 5 smaller
than the 32-event seed the call silently returns the seed instead of
reporting a configuration error. -/
theorem C8_counterexample :
    (generate_sequence uniformStub constSample seed32 33 (-1)).length = 33 ∧
    (generate_sequence uniformStub constSample seed32 33 (-1)).getD 32
        dummyEvent =
      constSample (uniformStub (lastN 31 seed32)) (-1) ∧
    generate_sequence uniformStub constSample seed32 5 1 = seed32 :=
  of_decide_eq_true (by with_unfolding_all rfl)

/-- C8, amended: generate_sequence performs no configuration validation:
whatever the temperature (including values ≤ 0), a target length greater
than the seed length leads straight to a predictor invocation on the last
31 seed events, and a target length at most the seed length returns the
seed unchanged with no error. -/
theorem C8_no_eager_validation {π : Type} (predict : List Event → π)
    (sample : π → ℚ → Event) (seed : List Event) (length : Nat)
    (temperature : ℚ) :
    (length ≤ seed.length →
      generate_sequence predict sample seed length temperature = seed) ∧
    (seed.length < length →
      (generate_sequence predict sample seed length temperature).getD
          seed.length dummyEvent =
        sample (predict (lastN 31 seed)) temperature) := by
  constructor
  · intro h
    rw [generate_sequence, Nat.sub_eq_zero_of_le h]
    rfl
  · intro h
    rw [generate_sequence]
    exact genLoop_first (fun ctx => sample (predict ctx) temperature)
      (length - seed.length) seed (by omega)

/-- C8, witness: both branches evaluated at the stub predictor, for target
lengths 5 and 40 against the 32-event seed. -/
theorem C8_witness :
    (5 ≤ seed32.length ∧
      generate_sequence uniformStub constSample seed32 5 1 = seed32) ∧
    (seed32.length < 40 ∧
      (generate_sequence uniformStub constSample seed32 40 1).getD
          seed32.length dummyEvent =
        constSample (uniformStub (lastN 31 seed32)) 1) :=
  ⟨⟨by decide,
    (C8_no_eager_validation uniformStub constSample seed32 5 1).1 (by decide)⟩,
   ⟨by decide,
    (C8_no_eager_validation uniformStub constSample seed32 40 1).2
      (by decide)⟩⟩

/-- C9: decoding is total over arbitrary integer class indices via
defaulting lookups: an out-of-range time_shift_class contributes a time
shift of 0.0 (the offset does not move), and an out-of-range duration_class
renders every element emitted for that event with duration 0.5. -/
theorem C9_decode_defaults (e : Event) (off : ℚ) :
    (¬ (0 ≤ e.tsClass ∧ e.tsClass < 9) →
      mapGetD TIME_SHIFT_MAP e.tsClass 0 = 0 ∧ (decodeStep e off).2 = off) ∧
    (¬ (0 ≤ e.durClass ∧ e.durClass < 8) →
      mapGetD DURATION_MAP e.durClass (1/2) = 1/2 ∧
      ∀ x ∈ (decodeStep e off).1, x.elemDur = 1/2) := by
  constructor
  · intro h
    have hm : mapGetD TIME_SHIFT_MAP e.tsClass 0 = 0 := by
      rw [mapGetD, if_neg]
      intro hc
      exact h ⟨hc.1, by simpa [TIME_SHIFT_MAP] using hc.2⟩
    exact ⟨hm, by rw [decodeStep_snd, hm, add_zero]⟩
  · intro h
    have hm : mapGetD DURATION_MAP e.durClass (1/2) = 1/2 := by
      rw [mapGetD, if_neg]
      intro hc
      exact h ⟨hc.1, by simpa [DURATION_MAP] using hc.2⟩
    exact ⟨hm, fun x hx => by rw [(decodeStep_elems e off x hx).1, hm]⟩

/-- C9, witness: the defaults evaluated at the out-of-range classes
duration_class = -5 and time_shift_class = 99. -/
theorem C9_witness :
    (¬ ((0 : Int) ≤ 99 ∧ (99 : Int) < 9) ∧
      (mapGetD TIME_SHIFT_MAP 99 0 = 0 ∧
        (decodeStep ⟨60, 128, 128, 128, -5, 99⟩ 7).2 = 7)) ∧
    (¬ ((0 : Int) ≤ -5 ∧ (-5 : Int) < 8) ∧
      (mapGetD DURATION_MAP (-5) (1/2) = 1/2 ∧
        ∀ x ∈ (decodeStep ⟨60, 128, 128, 128, -5, 99⟩ 7).1,
          x.elemDur = 1/2)) :=
  ⟨⟨by decide,
    (C9_decode_defaults ⟨60, 128, 128, 128, -5, 99⟩ 7).1 (by decide)⟩,
   ⟨by decide,
    (C9_decode_defaults ⟨60, 128, 128, 128, -5, 99⟩ 7).2 (by decide)⟩⟩

/-- C10: under the random-number-generator contract, every event of a
random seed has a first slot holding a pitch in [50, 89], optional slots
holding 128 or a pitch in [50, 89] (slot k sounds exactly when its uniform
gate is at most 0.3, 0.1, 0.05 for k = 2, 3, 4), duration class in [0, 7]
and time-shift class in [0, 8]; no slot is ever the rest sentinel 129 and
no event is all padding. -/
theorem C10_seed_invariants (draws : List SeedDraw)
    (hv : ∀ d ∈ draws, d.Valid) :
    (∀ e ∈ create_random_seed_sequence draws,
      (50 ≤ e.p0 ∧ e.p0 ≤ 89) ∧
      (e.p1 = 128 ∨ (50 ≤ e.p1 ∧ e.p1 ≤ 89)) ∧
      (e.p2 = 128 ∨ (50 ≤ e.p2 ∧ e.p2 ≤ 89)) ∧
      (e.p3 = 128 ∨ (50 ≤ e.p3 ∧ e.p3 ≤ 89)) ∧
      (0 ≤ e.durClass ∧ e.durClass ≤ 7) ∧
      (0 ≤ e.tsClass ∧ e.tsClass ≤ 8) ∧
      (e.p0 ≠ 129 ∧ e.p1 ≠ 129 ∧ e.p2 ≠ 129 ∧ e.p3 ≠ 129) ∧
      ¬ (e.p0 = 128 ∧ e.p1 = 128 ∧ e.p2 = 128 ∧ e.p3 = 128)) ∧
    (∀ d ∈ draws,
      ((seedEvent d).p1 = 128 ↔ d.u2 > 3/10) ∧
      ((seedEvent d).p2 = 128 ↔ d.u3 > 1/10) ∧
      ((seedEvent d).p3 = 128 ↔ d.u4 > 1/20)) := by
  constructor
  · intro e he
    rw [create_random_seed_sequence, List.mem_map] at he
    obtain ⟨d, hd, rfl⟩ := he
    obtain ⟨hp1a, hp1b, ha2a, ha2b, ha3a, ha3b, ha4a, ha4b, _, _, _, _, _, _,
      hda, hdb, hta, htb⟩ := hv d hd
    have hdb8 : d.dur < 8 := hdb
    have htb9 : d.ts < 9 := htb
    simp only [seedEvent]
    refine ⟨⟨hp1a, by omega⟩, ?_, ?_, ?_, ⟨hda, by omega⟩, ⟨hta, by omega⟩,
      ⟨by omega, ?_, ?_, ?_⟩, ?_⟩
    · by_cases hg : d.u2 > 3/10
      · exact Or.inl (if_pos hg)
      · rw [if_neg hg]; exact Or.inr ⟨ha2a, by omega⟩
    · by_cases hg : d.u3 > 1/10
      · exact Or.inl (if_pos hg)
      · rw [if_neg hg]; exact Or.inr ⟨ha3a, by omega⟩
    · by_cases hg : d.u4 > 1/20
      · exact Or.inl (if_pos hg)
      · rw [if_neg hg]; exact Or.inr ⟨ha4a, by omega⟩
    · by_cases hg : d.u2 > 3/10
      · rw [if_pos hg]; decide
      · rw [if_neg hg]; omega
    · by_cases hg : d.u3 > 1/10
      · rw [if_pos hg]; decide
      · rw [if_neg hg]; omega
    · by_cases hg : d.u4 > 1/20
      · rw [if_pos hg]; decide
      · rw [if_neg hg]; omega
    · intro hcon
      exact absurd hcon.1 (by omega)
  · intro d hd
    obtain ⟨_, _, ha2a, ha2b, ha3a, ha3b, ha4a, ha4b, _, _, _, _, _, _,
      _, _, _, _⟩ := hv d hd
    simp only [seedEvent]
    refine ⟨?_, ?_, ?_⟩
    · by_cases hg : d.u2 > 3/10
      · rw [if_pos hg]; exact iff_of_true rfl hg
      · rw [if_neg hg]; exact iff_of_false (by omega) hg
    · by_cases hg : d.u3 > 1/10
      · rw [if_pos hg]; exact iff_of_true rfl hg
      · rw [if_neg hg]; exact iff_of_false (by omega) hg
    · by_cases hg : d.u4 > 1/20
      · rw [if_pos hg]; exact iff_of_true rfl hg
      · rw [if_neg hg]; exact iff_of_false (by omega) hg

/-- C10, witness: the seed invariants evaluated on one concrete draw. -/
theorem C10_witness :
    (∀ d ∈ [demoDraw], d.Valid) ∧
    ((∀ e ∈ create_random_seed_sequence [demoDraw],
      (50 ≤ e.p0 ∧ e.p0 ≤ 89) ∧
      (e.p1 = 128 ∨ (50 ≤ e.p1 ∧ e.p1 ≤ 89)) ∧
      (e.p2 = 128 ∨ (50 ≤ e.p2 ∧ e.p2 ≤ 89)) ∧
      (e.p3 = 128 ∨ (50 ≤ e.p3 ∧ e.p3 ≤ 89)) ∧
      (0 ≤ e.durClass ∧ e.durClass ≤ 7) ∧
      (0 ≤ e.tsClass ∧ e.tsClass ≤ 8) ∧
      (e.p0 ≠ 129 ∧ e.p1 ≠ 129 ∧ e.p2 ≠ 129 ∧ e.p3 ≠ 129) ∧
      ¬ (e.p0 = 128 ∧ e.p1 = 128 ∧ e.p2 = 128 ∧ e.p3 = 128)) ∧
    (∀ d ∈ [demoDraw],
      ((seedEvent d).p1 = 128 ↔ d.u2 > 3/10) ∧
      ((seedEvent d).p2 = 128 ↔ d.u3 > 1/10) ∧
      ((seedEvent d).p3 = 128 ↔ d.u4 > 1/20))) := by
  have hv : ∀ d ∈ [demoDraw], d.Valid := by
    intro d hd
    rw [List.mem_singleton] at hd
    subst hd
    refine ⟨?_, ?_, ?_, ?_, ?_, ?_, ?_, ?_, ?_, ?_, ?_, ?_, ?_, ?_, ?_, ?_,
      ?_, ?_⟩ <;>
      exact of_decide_eq_true (by with_unfolding_all rfl)
  exact ⟨hv, C10_seed_invariants [demoDraw] hv⟩
